import Mathlib

/-!
# Verification of the fastproto pure-Python protobuf wire codec

This file embeds the reference implementation
(`python/fastproto/fastproto/_pure.py`) in Lean and proves properties of
the embedding.

Modelling conventions:
* Python `bytes`/`bytearray`/`memoryview` values are `List Nat`, one entry
  per byte (entries are `< 256` for any real buffer; hypotheses state this
  where a theorem needs it).
* Python `int` is `Int` (arbitrary precision, two's-complement bitwise
  semantics), or `Nat` where the source value is always non-negative.
* Python `float` is modelled by its IEEE-754 bit pattern (a `Nat`).  The
  codec never performs float arithmetic: `struct.pack("<d", v)` /
  `struct.unpack` only reinterpret the bit pattern, so every wire-level
  statement is preserved by this modelling.
* Python `str` values are modelled by their UTF-8 byte sequences.
* A `raise` is an `Except.error`; methods that mutate a `Writer` before
  raising return the post-mutation state together with `Option String`
  (`some` = the call raised).
* Index-based loops (`while True: ... data[pos] ...`) are rendered as
  structural recursion over the suffix `data[pos:]`, tracking the absolute
  position `pos` exactly as the source does.
-/

deriving instance DecidableEq for Except

namespace FastProto

/-- `WireType` enumeration from `fastproto/__init__.py`:
VARINT = 0, FIXED64 = 1, LEN = 2, FIXED32 = 5. -/
inductive WireType where
  | VARINT
  | FIXED64
  | LEN
  | FIXED32
deriving DecidableEq, Repr

/-- The integer value of a wire type. -/
def WireType.toNat : WireType → Nat
  | .VARINT => 0
  | .FIXED64 => 1
  | .LEN => 2
  | .FIXED32 => 5

/-- The Python `WireType(n)` enum constructor (named `fromValue` here because Lean reserves `ofNat` on enum inductives): `none` models the
`ValueError` raised for the reserved values 3, 4, 6, 7 (and anything else
outside the enumeration). -/
def WireType.fromValue : Nat → Option WireType
  | 0 => some .VARINT
  | 1 => some .FIXED64
  | 2 => some .LEN
  | 5 => some .FIXED32
  | _ => none

/-- `make_tag(field_number, wire_type)` from `_pure.py`. -/
def make_tag (fieldNumber : Nat) (wireType : WireType) : Except String Nat :=
  if fieldNumber < 1 then .error "field_number must be >= 1"
  else if fieldNumber > 0x1FFFFFFF then .error "field_number too large"
  else .ok ((fieldNumber <<< 3) ||| wireType.toNat)

/-- `parse_tag(tag)` from `_pure.py`.  Note the source checks
`field_number < 1` before constructing `WireType(wire_type)`, and checks
no upper bound on the field number. -/
def parse_tag (tag : Nat) : Except String (Nat × WireType) :=
  let wireType := tag &&& 0x07
  let fieldNumber := tag >>> 3
  if fieldNumber < 1 then .error "invalid field number"
  else
    match WireType.fromValue wireType with
    | some w => .ok (fieldNumber, w)
    | none => .error "invalid wire type"

/-- The `while value > 0x7F` loop of `encode_varint`, with a fuel
argument for structural recursion.  `encodeVarintNat` supplies fuel
`value`, which always bounds the iteration count (the loop runs at most
`log₁₂₈ value` times); `encodeVarintGo_eq` below proves the fuel is
irrelevant, i.e. the function satisfies the loop's defining equation. -/
def encodeVarintGo : Nat → Nat → List Nat
  | 0, value => [value]
  | fuel + 1, value =>
    if 0x7F < value then ((value &&& 0x7F) ||| 0x80) :: encodeVarintGo fuel (value >>> 7)
    else [value]

/-- `encode_varint` restricted to its loop on a non-negative value. -/
def encodeVarintNat (value : Nat) : List Nat :=
  encodeVarintGo value value

/-- `encode_varint(value)` from `_pure.py`: a negative value is first
masked with `0xFFFFFFFFFFFFFFFF` (i.e. reduced mod 2^64). -/
def encode_varint (value : Int) : List Nat :=
  encodeVarintNat (if value < 0 then (value % ((2 : Int) ^ 64)).toNat else value.toNat)

/-- The `while True` loop of `decode_varint`, walking the suffix
`data[pos:]` structurally while tracking the absolute position `pos`.
The `[]` case is the source's `if pos >= len(data): raise ValueError
("truncated varint")`. -/
def decodeVarintFrom : List Nat → Nat → Nat → Nat → Except String (Nat × Nat)
  | [], _, _, _ => .error "truncated varint"
  | byte :: restBytes, result, shift, pos =>
    let result := result ||| ((byte &&& 0x7F) <<< shift)
    if byte &&& 0x80 = 0 then .ok (result, pos + 1)
    else if 64 ≤ shift + 7 then .error "varint too long"
    else decodeVarintFrom restBytes result (shift + 7) (pos + 1)

/-- `decode_varint(data, offset)` from `_pure.py`. -/
def decode_varint (data : List Nat) (offset : Nat) : Except String (Nat × Nat) :=
  decodeVarintFrom (data.drop offset) 0 0 offset

/-- The `while offset < len(data)` loop of `iter_varints`, with fuel
(each iteration consumes at least one byte, so `data.length - offset`
bounds the iteration count; `iterVarintsGo_eq` proves fuel-irrelevance). -/
def iterVarintsGo : Nat → List Nat → Nat → Except String (List Nat)
  | 0, _, _ => .ok []
  | fuel + 1, data, offset =>
    if offset < data.length then
      match decode_varint data offset with
      | .error e => .error e
      | .ok (value, offset2) =>
        match iterVarintsGo fuel data offset2 with
        | .error e => .error e
        | .ok rest => .ok (value :: rest)
    else .ok []

/-- `iter_varints(data)` from `_pure.py`, materialised as a list.  A
`ValueError` inside the generator is an `Except.error`. -/
def iter_varints (data : List Nat) : Except String (List Nat) :=
  iterVarintsGo data.length data 0

/-- `zigzag_encode(value)` from `_pure.py`: `(value << 1) ^ (value >> 63)`
with Python arbitrary-precision two's-complement semantics. -/
def zigzag_encode (value : Int) : Int :=
  Int.xor (value <<< (1 : Int)) (value >>> (63 : Int))

/-- `zigzag_decode(value)` from `_pure.py`: `(value >> 1) ^ -(value & 1)`. -/
def zigzag_decode (value : Int) : Int :=
  Int.xor (value >>> (1 : Int)) (-(Int.land value 1))

/-- Sign extension `if value > 0x7FFFFFFF: value -= 0x100000000` used by
the 32-bit accessors. -/
def signExtend32 (value : Nat) : Int :=
  if 0x7FFFFFFF < value then (value : Int) - 0x100000000 else (value : Int)

/-- Sign extension from 64 bits. -/
def signExtend64 (value : Nat) : Int :=
  if 0x7FFFFFFFFFFFFFFF < value then (value : Int) - 0x10000000000000000 else (value : Int)

/-- `struct.unpack` of `count` little-endian bytes of `data` starting at
the front (least significant byte first). -/
def leValue : Nat → List Nat → Nat
  | 0, _ => 0
  | _ + 1, [] => 0
  | count + 1, byte :: restBytes => byte + 256 * leValue count restBytes

/-- `struct.pack` of `value` as `count` little-endian bytes (the source
always masks the value to the target width first, so no range check is
needed here). -/
def lePack : Nat → Nat → List Nat
  | 0, _ => []
  | count + 1, value => (value % 256) :: lePack count (value / 256)

/-- `struct.unpack(f"<{len//4}I", data)`: split into 4-byte chunks,
little-endian each.  (Only reached when the length is an exact multiple
of 4; a trailing fragment shorter than 4 bytes is dropped.) -/
def chunksLE4 : List Nat → List Nat
  | b0 :: b1 :: b2 :: b3 :: restBytes => leValue 4 [b0, b1, b2, b3] :: chunksLE4 restBytes
  | _ => []

/-- `struct.unpack(f"<{len//8}Q", data)`: split into 8-byte chunks,
little-endian each. -/
def chunksLE8 : List Nat → List Nat
  | b0 :: b1 :: b2 :: b3 :: b4 :: b5 :: b6 :: b7 :: restBytes =>
      leValue 8 [b0, b1, b2, b3, b4, b5, b6, b7] :: chunksLE8 restBytes
  | _ => []

/-- `Field` from `_pure.py`: number, wire type, payload bytes (LEN) or
decoded value (VARINT/FIXED). -/
structure Field where
  number : Nat
  wireType : WireType
  data : List Nat
  value : Option Nat
deriving DecidableEq, Repr

/-- `Field._require_wire_type` followed by the `assert self._value is not
None` pattern of the scalar accessors: produce the stored value or the
wire-type-mismatch error. -/
def Field.requireValue (f : Field) (expected : WireType) : Except String Nat :=
  if f.wireType ≠ expected then .error "wire type mismatch"
  else
    match f.value with
    | some v => .ok v
    | none => .error "assertion failed: value is None"

/-- `Field.int64`. -/
def Field.int64 (f : Field) : Except String Int := do
  let v ← f.requireValue .VARINT
  return signExtend64 v

/-- `Field.bool`. -/
def Field.bool (f : Field) : Except String Bool := do
  let v ← f.requireValue .VARINT
  return v ≠ 0

/-- `Field.double` (bit-pattern model: returns the 64-bit IEEE-754
pattern that `struct.unpack("<d", ...)` would reinterpret). -/
def Field.double (f : Field) : Except String Nat :=
  f.requireValue .FIXED64

/-- `Field.string` (UTF-8 byte-sequence model of `str`; the payload is
returned as bytes). -/
def Field.string (f : Field) : Except String (List Nat) :=
  if f.wireType ≠ .LEN then .error "wire type mismatch"
  else .ok f.data

/-- `Field.bytes`. -/
def Field.bytes (f : Field) : Except String (List Nat) :=
  if f.wireType ≠ .LEN then .error "wire type mismatch"
  else .ok f.data

/-- `Field.packed_int32s`. -/
def Field.packed_int32s (f : Field) : Except String (List Int) :=
  if f.wireType ≠ .LEN then .error "wire type mismatch"
  else do
    let vs ← iter_varints f.data
    return vs.map fun v => signExtend32 (v &&& 0xFFFFFFFF)

/-- `Field.packed_int64s`. -/
def Field.packed_int64s (f : Field) : Except String (List Int) :=
  if f.wireType ≠ .LEN then .error "wire type mismatch"
  else do
    let vs ← iter_varints f.data
    return vs.map signExtend64

/-- `Field.packed_uint32s`. -/
def Field.packed_uint32s (f : Field) : Except String (List Nat) :=
  if f.wireType ≠ .LEN then .error "wire type mismatch"
  else do
    let vs ← iter_varints f.data
    return vs.map (· &&& 0xFFFFFFFF)

/-- `Field.packed_uint64s`. -/
def Field.packed_uint64s (f : Field) : Except String (List Nat) :=
  if f.wireType ≠ .LEN then .error "wire type mismatch"
  else iter_varints f.data

/-- `Field.packed_sint32s`. -/
def Field.packed_sint32s (f : Field) : Except String (List Int) :=
  if f.wireType ≠ .LEN then .error "wire type mismatch"
  else do
    let vs ← iter_varints f.data
    return vs.map fun v =>
      let decoded := zigzag_decode ((v &&& 0xFFFFFFFF : Nat) : Int)
      if 0x7FFFFFFF < decoded then decoded - 0x100000000 else decoded

/-- `Field.packed_sint64s`. -/
def Field.packed_sint64s (f : Field) : Except String (List Int) :=
  if f.wireType ≠ .LEN then .error "wire type mismatch"
  else do
    let vs ← iter_varints f.data
    return vs.map fun v => zigzag_decode (v : Int)

/-- `Field.packed_bools`. -/
def Field.packed_bools (f : Field) : Except String (List Bool) :=
  if f.wireType ≠ .LEN then .error "wire type mismatch"
  else do
    let vs ← iter_varints f.data
    return vs.map (· ≠ 0)

/-- `Field.packed_fixed32s`. -/
def Field.packed_fixed32s (f : Field) : Except String (List Nat) :=
  if f.wireType ≠ .LEN then .error "wire type mismatch"
  else if f.data.length % 4 ≠ 0 then .error "packed fixed32 data length not a multiple of 4"
  else .ok (chunksLE4 f.data)

/-- `Field.packed_sfixed32s`. -/
def Field.packed_sfixed32s (f : Field) : Except String (List Int) :=
  if f.wireType ≠ .LEN then .error "wire type mismatch"
  else if f.data.length % 4 ≠ 0 then .error "packed sfixed32 data length not a multiple of 4"
  else .ok ((chunksLE4 f.data).map signExtend32)

/-- `Field.packed_floats` (bit-pattern model of `float`). -/
def Field.packed_floats (f : Field) : Except String (List Nat) :=
  if f.wireType ≠ .LEN then .error "wire type mismatch"
  else if f.data.length % 4 ≠ 0 then .error "packed float data length not a multiple of 4"
  else .ok (chunksLE4 f.data)

/-- `Field.packed_fixed64s`. -/
def Field.packed_fixed64s (f : Field) : Except String (List Nat) :=
  if f.wireType ≠ .LEN then .error "wire type mismatch"
  else if f.data.length % 8 ≠ 0 then .error "packed fixed64 data length not a multiple of 8"
  else .ok (chunksLE8 f.data)

/-- `Field.packed_sfixed64s`. -/
def Field.packed_sfixed64s (f : Field) : Except String (List Int) :=
  if f.wireType ≠ .LEN then .error "wire type mismatch"
  else if f.data.length % 8 ≠ 0 then .error "packed sfixed64 data length not a multiple of 8"
  else .ok ((chunksLE8 f.data).map signExtend64)

/-- `Field.packed_doubles` (bit-pattern model of `float`). -/
def Field.packed_doubles (f : Field) : Except String (List Nat) :=
  if f.wireType ≠ .LEN then .error "wire type mismatch"
  else if f.data.length % 8 ≠ 0 then .error "packed double data length not a multiple of 8"
  else .ok (chunksLE8 f.data)

/-- `Reader` from `_pure.py`: the underlying buffer plus the cursor. -/
structure Reader where
  data : List Nat
  pos : Nat
deriving DecidableEq, Repr

/-- `Reader.next_field`.  `ok none` is the source's `return None` at end
of message; `error` is a raised `ValueError`. -/
def Reader.next_field (r : Reader) : Except String (Option (Field × Reader)) :=
  if r.data.length ≤ r.pos then .ok none
  else
    match decode_varint r.data r.pos with
    | .error e => .error e
    | .ok (tag, pos1) =>
      match parse_tag tag with
      | .error e => .error e
      | .ok (fieldNumber, wireType) =>
        match wireType with
        | .VARINT =>
          match decode_varint r.data pos1 with
          | .error e => .error e
          | .ok (value, pos2) =>
            .ok (some (⟨fieldNumber, .VARINT, [], some value⟩, ⟨r.data, pos2⟩))
        | .FIXED64 =>
          if r.data.length < pos1 + 8 then .error "truncated fixed64"
          else
            .ok (some (⟨fieldNumber, .FIXED64, [], some (leValue 8 (r.data.drop pos1))⟩,
              ⟨r.data, pos1 + 8⟩))
        | .LEN =>
          match decode_varint r.data pos1 with
          | .error e => .error e
          | .ok (length, pos2) =>
            if r.data.length < pos2 + length then .error "truncated length-delimited field"
            else
              .ok (some (⟨fieldNumber, .LEN, (r.data.drop pos2).take length, none⟩,
                ⟨r.data, pos2 + length⟩))
        | .FIXED32 =>
          if r.data.length < pos1 + 4 then .error "truncated fixed32"
          else
            .ok (some (⟨fieldNumber, .FIXED32, [], some (leValue 4 (r.data.drop pos1))⟩,
              ⟨r.data, pos1 + 4⟩))

/-- `Reader.remaining`. -/
def Reader.remaining (r : Reader) : Int :=
  (r.data.length : Int) - (r.pos : Int)

/-- `Writer` from `_pure.py`.  The buffer is the only state a write
method touches; the parent link and pending field number of a nested
writer are passed explicitly to `Writer.end` / `Writer.exit` below. -/
structure Writer where
  buffer : List Nat
deriving DecidableEq, Repr

/-- A fresh writer (`Writer()`). -/
def Writer.new : Writer := ⟨[]⟩

/-- `Writer._write_tag`: append the varint-encoded tag, or raise the
`make_tag` error without touching the buffer. -/
def Writer.write_tag (w : Writer) (fieldNumber : Nat) (wireType : WireType) :
    Writer × Option String :=
  match make_tag fieldNumber wireType with
  | .error e => (w, some e)
  | .ok tag => (⟨w.buffer ++ encode_varint (tag : Int)⟩, none)

/-- Shared shape of the scalar write methods: tag, then payload bytes
(none of which can raise once the tag has been written). -/
def Writer.writeTagged (w : Writer) (fieldNumber : Nat) (wireType : WireType)
    (payload : List Nat) : Writer × Option String :=
  match make_tag fieldNumber wireType with
  | .error e => (w, some e)
  | .ok tag => (⟨w.buffer ++ encode_varint (tag : Int) ++ payload⟩, none)

/-- `Writer.int32`: sign-extends negative values to 64 bits then varint
encodes. -/
def Writer.int32 (w : Writer) (fieldNumber : Nat) (value : Int) : Writer × Option String :=
  w.writeTagged fieldNumber .VARINT
    (encode_varint (if value < 0 then value % ((2 : Int) ^ 64) else value))

/-- `Writer.int64`. -/
def Writer.int64 (w : Writer) (fieldNumber : Nat) (value : Int) : Writer × Option String :=
  w.writeTagged fieldNumber .VARINT
    (encode_varint (if value < 0 then value % ((2 : Int) ^ 64) else value))

/-- `Writer.uint32`. -/
def Writer.uint32 (w : Writer) (fieldNumber : Nat) (value : Int) : Writer × Option String :=
  w.writeTagged fieldNumber .VARINT (encode_varint (Int.land value 0xFFFFFFFF))

/-- `Writer.uint64`. -/
def Writer.uint64 (w : Writer) (fieldNumber : Nat) (value : Int) : Writer × Option String :=
  w.writeTagged fieldNumber .VARINT (encode_varint value)

/-- `Writer.sint32`. -/
def Writer.sint32 (w : Writer) (fieldNumber : Nat) (value : Int) : Writer × Option String :=
  w.writeTagged fieldNumber .VARINT (encode_varint (Int.land (zigzag_encode value) 0xFFFFFFFF))

/-- `Writer.sint64`. -/
def Writer.sint64 (w : Writer) (fieldNumber : Nat) (value : Int) : Writer × Option String :=
  w.writeTagged fieldNumber .VARINT (encode_varint (zigzag_encode value))

/-- `Writer.bool`. -/
def Writer.bool (w : Writer) (fieldNumber : Nat) (value : Bool) : Writer × Option String :=
  w.writeTagged fieldNumber .VARINT (encode_varint (if value then 1 else 0))

/-- `Writer.enum` (delegates to `int32`). -/
def Writer.enum (w : Writer) (fieldNumber : Nat) (value : Int) : Writer × Option String :=
  w.int32 fieldNumber value

/-- `Writer.fixed64`: `struct.pack("<Q", value & 0xFFFFFFFFFFFFFFFF)`. -/
def Writer.fixed64 (w : Writer) (fieldNumber : Nat) (value : Int) : Writer × Option String :=
  w.writeTagged fieldNumber .FIXED64 (lePack 8 (Int.land value 0xFFFFFFFFFFFFFFFF).toNat)

/-- `Writer.sfixed64`: `struct.pack("<q", value)` raises `struct.error`
for a value outside the signed 64-bit range — after the tag bytes have
already been appended. -/
def Writer.sfixed64 (w : Writer) (fieldNumber : Nat) (value : Int) : Writer × Option String :=
  match make_tag fieldNumber .FIXED64 with
  | .error e => (w, some e)
  | .ok tag =>
    let w : Writer := ⟨w.buffer ++ encode_varint (tag : Int)⟩
    if value < -((2 : Int) ^ 63) ∨ (2 : Int) ^ 63 ≤ value then (w, some "argument out of range")
    else (⟨w.buffer ++ lePack 8 (value % ((2 : Int) ^ 64)).toNat⟩, none)

/-- `Writer.double` (bit-pattern model: the argument is the 64-bit
IEEE-754 pattern that `struct.pack("<d", value)` would produce). -/
def Writer.double (w : Writer) (fieldNumber : Nat) (bits : Nat) : Writer × Option String :=
  w.writeTagged fieldNumber .FIXED64 (lePack 8 bits)

/-- `Writer.fixed32`: `struct.pack("<I", value & 0xFFFFFFFF)`. -/
def Writer.fixed32 (w : Writer) (fieldNumber : Nat) (value : Int) : Writer × Option String :=
  w.writeTagged fieldNumber .FIXED32 (lePack 4 (Int.land value 0xFFFFFFFF).toNat)

/-- `Writer.sfixed32`: `struct.pack("<i", value)` raises `struct.error`
for a value outside the signed 32-bit range — after the tag bytes have
already been appended. -/
def Writer.sfixed32 (w : Writer) (fieldNumber : Nat) (value : Int) : Writer × Option String :=
  match make_tag fieldNumber .FIXED32 with
  | .error e => (w, some e)
  | .ok tag =>
    let w : Writer := ⟨w.buffer ++ encode_varint (tag : Int)⟩
    if value < -((2 : Int) ^ 31) ∨ (2 : Int) ^ 31 ≤ value then (w, some "argument out of range")
    else (⟨w.buffer ++ lePack 4 (value % ((2 : Int) ^ 32)).toNat⟩, none)

/-- `Writer.float` (bit-pattern model: the argument is the 32-bit
IEEE-754 pattern). -/
def Writer.float (w : Writer) (fieldNumber : Nat) (bits : Nat) : Writer × Option String :=
  w.writeTagged fieldNumber .FIXED32 (lePack 4 bits)

/-- `Writer.string` (UTF-8 byte-sequence model of the argument). -/
def Writer.string (w : Writer) (fieldNumber : Nat) (encoded : List Nat) :
    Writer × Option String :=
  w.writeTagged fieldNumber .LEN (encode_varint (encoded.length : Int) ++ encoded)

/-- `Writer.bytes`. -/
def Writer.bytes (w : Writer) (fieldNumber : Nat) (value : List Nat) :
    Writer × Option String :=
  w.writeTagged fieldNumber .LEN (encode_varint (value.length : Int) ++ value)

/-- `Writer.message(field_number)`: the child writer starts with an empty
buffer of its own. -/
def Writer.message (_parent : Writer) (_fieldNumber : Nat) : Writer :=
  ⟨[]⟩

/-- `Writer.end` on a child writer: append `(tag, length, bytes)` to the
parent.  The child (`self`) and its parent/field-number links are
explicit arguments here. -/
def Writer.end (child : Writer) (parent : Writer) (fieldNumber : Nat) :
    Writer × Option String :=
  match make_tag fieldNumber .LEN with
  | .error e => (parent, some e)
  | .ok tag =>
    (⟨parent.buffer ++ encode_varint (tag : Int) ++
      encode_varint (child.buffer.length : Int) ++ child.buffer⟩, none)

/-- `Writer.__exit__(exc_type, ...)`: the write-back to the parent
happens only when `exc_type is None`; `excRaised = true` models a
context-manager exit with a pending exception. -/
def Writer.exit (child : Writer) (parent : Writer) (fieldNumber : Nat)
    (excRaised : Bool) : Writer × Option String :=
  if excRaised then (parent, none)
  else child.end parent fieldNumber

/-- `Writer.finish`. -/
def Writer.finish (w : Writer) : List Nat :=
  w.buffer

/-- The packed-varint loop shared by `packed_int32s`/`packed_int64s`:
each value is sign-extended to 64 bits when negative, then varint
encoded. -/
def packVarints (values : List Int) : List Nat :=
  values.flatMap fun v => encode_varint (if v < 0 then v % ((2 : Int) ^ 64) else v)

/-- Shared tail of every packed write method: write the LEN tag, the
payload length as a varint, then the payload. -/
def Writer.writePacked (w : Writer) (fieldNumber : Nat) (packed : List Nat) :
    Writer × Option String :=
  match make_tag fieldNumber .LEN with
  | .error e => (w, some e)
  | .ok tag =>
    (⟨w.buffer ++ encode_varint (tag : Int) ++
      encode_varint (packed.length : Int) ++ packed⟩, none)

/-- `Writer.packed_int32s` (`if not values: return`, then pack). -/
def Writer.packed_int32s (w : Writer) (fieldNumber : Nat) (values : List Int) :
    Writer × Option String :=
  if values.isEmpty then (w, none)
  else w.writePacked fieldNumber (packVarints values)

/-- `Writer.packed_int64s`. -/
def Writer.packed_int64s (w : Writer) (fieldNumber : Nat) (values : List Int) :
    Writer × Option String :=
  if values.isEmpty then (w, none)
  else w.writePacked fieldNumber (packVarints values)

/-- `Writer.packed_uint32s`. -/
def Writer.packed_uint32s (w : Writer) (fieldNumber : Nat) (values : List Int) :
    Writer × Option String :=
  if values.isEmpty then (w, none)
  else w.writePacked fieldNumber (values.flatMap fun v => encode_varint (Int.land v 0xFFFFFFFF))

/-- `Writer.packed_uint64s`. -/
def Writer.packed_uint64s (w : Writer) (fieldNumber : Nat) (values : List Int) :
    Writer × Option String :=
  if values.isEmpty then (w, none)
  else w.writePacked fieldNumber (values.flatMap fun v => encode_varint v)

/-- `Writer.packed_sint32s`. -/
def Writer.packed_sint32s (w : Writer) (fieldNumber : Nat) (values : List Int) :
    Writer × Option String :=
  if values.isEmpty then (w, none)
  else w.writePacked fieldNumber
    (values.flatMap fun v => encode_varint (Int.land (zigzag_encode v) 0xFFFFFFFF))

/-- `Writer.packed_sint64s`. -/
def Writer.packed_sint64s (w : Writer) (fieldNumber : Nat) (values : List Int) :
    Writer × Option String :=
  if values.isEmpty then (w, none)
  else w.writePacked fieldNumber (values.flatMap fun v => encode_varint (zigzag_encode v))

/-- `Writer.packed_bools`. -/
def Writer.packed_bools (w : Writer) (fieldNumber : Nat) (values : List Bool) :
    Writer × Option String :=
  if values.isEmpty then (w, none)
  else w.writePacked fieldNumber
    (values.flatMap fun v => encode_varint (if v then 1 else 0))

/-- `Writer.packed_fixed32s`: tag, `len(values)*4` as varint, then each
value masked and packed little-endian (the mask means packing cannot
raise). -/
def Writer.packed_fixed32s (w : Writer) (fieldNumber : Nat) (values : List Int) :
    Writer × Option String :=
  if values.isEmpty then (w, none)
  else
    match make_tag fieldNumber .LEN with
    | .error e => (w, some e)
    | .ok tag =>
      (⟨w.buffer ++ encode_varint (tag : Int) ++
        encode_varint ((values.length * 4 : Nat) : Int) ++
        values.flatMap fun v => lePack 4 (Int.land v 0xFFFFFFFF).toNat⟩, none)

/-- The element loop of `packed_sfixed32s`: `struct.pack("<i", v)` raises
mid-loop on the first out-of-range value, keeping the bytes packed so
far. -/
def packSfixed32 : List Int → List Nat × Option String
  | [] => ([], none)
  | v :: restValues =>
    if v < -((2 : Int) ^ 31) ∨ (2 : Int) ^ 31 ≤ v then ([], some "argument out of range")
    else
      let (bytesRest, err) := packSfixed32 restValues
      (lePack 4 (v % ((2 : Int) ^ 32)).toNat ++ bytesRest, err)

/-- `Writer.packed_sfixed32s`: tag and length are appended first, then
elements one by one; a `struct.error` leaves the tag, the length and the
already-packed elements in the buffer. -/
def Writer.packed_sfixed32s (w : Writer) (fieldNumber : Nat) (values : List Int) :
    Writer × Option String :=
  if values.isEmpty then (w, none)
  else
    match make_tag fieldNumber .LEN with
    | .error e => (w, some e)
    | .ok tag =>
      let (bytes, err) := packSfixed32 values
      (⟨w.buffer ++ encode_varint (tag : Int) ++
        encode_varint ((values.length * 4 : Nat) : Int) ++ bytes⟩, err)

/-- `Writer.packed_floats` (bit-pattern model; `struct.pack("<f", v)`
overflow for non-float-representable Python floats is outside the
bit-pattern model, so packing is total here). -/
def Writer.packed_floats (w : Writer) (fieldNumber : Nat) (values : List Nat) :
    Writer × Option String :=
  if values.isEmpty then (w, none)
  else
    match make_tag fieldNumber .LEN with
    | .error e => (w, some e)
    | .ok tag =>
      (⟨w.buffer ++ encode_varint (tag : Int) ++
        encode_varint ((values.length * 4 : Nat) : Int) ++
        values.flatMap (lePack 4)⟩, none)

/-- `Writer.packed_fixed64s`. -/
def Writer.packed_fixed64s (w : Writer) (fieldNumber : Nat) (values : List Int) :
    Writer × Option String :=
  if values.isEmpty then (w, none)
  else
    match make_tag fieldNumber .LEN with
    | .error e => (w, some e)
    | .ok tag =>
      (⟨w.buffer ++ encode_varint (tag : Int) ++
        encode_varint ((values.length * 8 : Nat) : Int) ++
        values.flatMap fun v => lePack 8 (Int.land v 0xFFFFFFFFFFFFFFFF).toNat⟩, none)

/-- The element loop of `packed_sfixed64s`. -/
def packSfixed64 : List Int → List Nat × Option String
  | [] => ([], none)
  | v :: restValues =>
    if v < -((2 : Int) ^ 63) ∨ (2 : Int) ^ 63 ≤ v then ([], some "argument out of range")
    else
      let (bytesRest, err) := packSfixed64 restValues
      (lePack 8 (v % ((2 : Int) ^ 64)).toNat ++ bytesRest, err)

/-- `Writer.packed_sfixed64s`. -/
def Writer.packed_sfixed64s (w : Writer) (fieldNumber : Nat) (values : List Int) :
    Writer × Option String :=
  if values.isEmpty then (w, none)
  else
    match make_tag fieldNumber .LEN with
    | .error e => (w, some e)
    | .ok tag =>
      let (bytes, err) := packSfixed64 values
      (⟨w.buffer ++ encode_varint (tag : Int) ++
        encode_varint ((values.length * 8 : Nat) : Int) ++ bytes⟩, err)

/-- `Writer.packed_doubles` (bit-pattern model). -/
def Writer.packed_doubles (w : Writer) (fieldNumber : Nat) (values : List Nat) :
    Writer × Option String :=
  if values.isEmpty then (w, none)
  else
    match make_tag fieldNumber .LEN with
    | .error e => (w, some e)
    | .ok tag =>
      (⟨w.buffer ++ encode_varint (tag : Int) ++
        encode_varint ((values.length * 8 : Nat) : Int) ++
        values.flatMap (lePack 8)⟩, none)

/-! ## Varint machinery -/

/-- The fuel argument of `encodeVarintGo` is irrelevant as long as it is
at least the value (the loop runs at most `log₁₂₈ value ≤ value` times). -/
theorem encodeVarintGo_eq_of_le (fuel₁ : Nat) : ∀ fuel₂ value : Nat, value ≤ fuel₁ →
    value ≤ fuel₂ → encodeVarintGo fuel₁ value = encodeVarintGo fuel₂ value := by
  induction fuel₁ with
  | zero =>
    intro fuel₂ value h₁ _
    have hv : value = 0 := by omega
    subst hv
    cases fuel₂ <;> simp [encodeVarintGo]
  | succ fuel ih =>
    intro fuel₂ value h₁ h₂
    cases fuel₂ with
    | zero =>
      have hv : value = 0 := by omega
      subst hv
      simp [encodeVarintGo]
    | succ fuel₂ =>
      by_cases hv : 0x7F < value
      · have hd : value >>> 7 < value := by
          rw [Nat.shiftRight_eq_div_pow]
          exact Nat.div_lt_self (by omega) (by norm_num)
        simp only [encodeVarintGo, if_pos hv]
        rw [ih fuel₂ (value >>> 7) (by omega) (by omega)]
      · simp [encodeVarintGo, hv]

/-- `encodeVarintNat` satisfies the defining equation of the
`encode_varint` loop. -/
theorem encodeVarintNat_eq (value : Nat) :
    encodeVarintNat value =
      if 0x7F < value then ((value &&& 0x7F) ||| 0x80) :: encodeVarintNat (value >>> 7)
      else [value] := by
  by_cases hv : 0x7F < value
  · have hd : value >>> 7 < value := by
      rw [Nat.shiftRight_eq_div_pow]
      exact Nat.div_lt_self (by omega) (by norm_num)
    rw [if_pos hv]
    unfold encodeVarintNat
    cases value with
    | zero => omega
    | succ v =>
      simp only [encodeVarintGo, if_pos hv]
      rw [encodeVarintGo_eq_of_le v ((v + 1) >>> 7) ((v + 1) >>> 7) (by omega) le_rfl]
  · rw [if_neg hv]
    unfold encodeVarintNat
    cases value with
    | zero => simp [encodeVarintGo]
    | succ v => simp [encodeVarintGo, hv]

/-- A varint encoding is never empty. -/
theorem encodeVarintNat_ne_nil (value : Nat) : encodeVarintNat value ≠ [] := by
  rw [encodeVarintNat_eq]
  split <;> simp

/-- A value below `128^(k+1)` encodes in at most `k+1` bytes. -/
theorem encodeVarintNat_length_le (k : Nat) : ∀ value : Nat, value < 128 ^ (k + 1) →
    (encodeVarintNat value).length ≤ k + 1 := by
  induction k with
  | zero =>
    intro value h
    have h128 : (128 : Nat) ^ (0 + 1) = 128 := by norm_num
    rw [encodeVarintNat_eq, if_neg (by omega)]
    simp
  | succ k ih =>
    intro value h
    rw [encodeVarintNat_eq]
    by_cases hv : 0x7F < value
    · have hb : value >>> 7 < 128 ^ (k + 1) := by
        rw [Nat.shiftRight_eq_div_pow]
        have h2 : (2 : Nat) ^ 7 = 128 := by norm_num
        rw [h2]
        apply Nat.div_lt_of_lt_mul
        have hp : (128 : Nat) ^ (k + 1 + 1) = 128 ^ (k + 1) * 128 := by ring
        omega
      have := ih (value >>> 7) hb
      simp only [if_pos hv, List.length_cons]
      omega
    · simp [hv]

/-! ## Bit-level helper lemmas for the varint round trip -/

/-- Masking a continuation byte back with `0x7F` recovers the low seven
bits of the encoded value. -/
theorem and_or_contbyte (x : Nat) : (((x &&& 0x7F) ||| 0x80) &&& 0x7F) = x &&& 0x7F := by
  apply Nat.eq_of_testBit_eq
  intro i
  have h127 : (0x7F : Nat) = 2 ^ 7 - 1 := by norm_num
  have h128 : (0x80 : Nat) = 2 ^ 7 := by norm_num
  rw [h127, h128]
  simp only [Nat.testBit_and, Nat.testBit_or, Nat.testBit_two_pow_sub_one, Nat.testBit_two_pow]
  by_cases hi : i < 7
  · have : ¬ (7 = i) := by omega
    simp [hi, this]
  · simp [hi]

/-- A continuation byte has its high bit set. -/
theorem contbyte_has_high_bit (x : Nat) : (((x &&& 0x7F) ||| 0x80) &&& 0x80) ≠ 0 := by
  have h7 : (((x &&& 0x7F) ||| 0x80) &&& 0x80).testBit 7 = true := by
    have hb : Nat.testBit 0x80 7 = true := by decide
    simp [Nat.testBit_and, Nat.testBit_or, hb]
  intro h
  rw [h] at h7
  simp at h7

/-- A terminator byte (value ≤ 0x7F) is unchanged by the `0x7F` mask. -/
theorem small_and_127 (x : Nat) (h : x ≤ 0x7F) : x &&& 0x7F = x := by
  have h127 : (0x7F : Nat) = 2 ^ 7 - 1 := by norm_num
  rw [h127, Nat.and_pow_two_sub_one_eq_mod, Nat.mod_eq_of_lt (by omega)]

/-- A terminator byte has its high bit clear. -/
theorem small_and_128 (x : Nat) (h : x ≤ 0x7F) : x &&& 0x80 = 0 := by
  apply Nat.eq_of_testBit_eq
  intro i
  have h128 : (0x80 : Nat) = 2 ^ 7 := by norm_num
  rw [h128]
  simp only [Nat.testBit_and, Nat.testBit_two_pow, Nat.zero_testBit]
  by_cases hi : 7 = i
  · subst hi
    have : Nat.testBit x 7 = false := Nat.testBit_lt_two_pow (by omega)
    simp [this]
  · simp [hi]

/-- Recomposing the low seven bits with the remaining bits shifted by
seven more places yields the original value (shifted). -/
theorem or_shift_decomp (x shift : Nat) :
    ((x &&& 0x7F) <<< shift) ||| ((x >>> 7) <<< (shift + 7)) = x <<< shift := by
  apply Nat.eq_of_testBit_eq
  intro i
  have h127 : (0x7F : Nat) = 2 ^ 7 - 1 := by norm_num
  rw [h127]
  simp only [Nat.testBit_or, Nat.testBit_shiftLeft, Nat.testBit_and, Nat.testBit_shiftRight,
    Nat.testBit_two_pow_sub_one, ge_iff_le]
  by_cases h1 : shift ≤ i
  · by_cases h2 : shift + 7 ≤ i
    · have he : 7 + (i - (shift + 7)) = i - shift := by omega
      have hn : ¬ (i - shift < 7) := by omega
      simp [h1, h2, he, hn]
    · have hy : i - shift < 7 := by omega
      simp [h1, h2, hy]
  · have hn : ¬ (shift + 7 ≤ i) := by omega
    simp [h1, hn]

/-- Decoding an encoded value embedded at the cursor: the decoder stops
exactly at the end of the encoding, OR-ing the value (shifted by the
accumulated shift) into the running result.  The hypothesis rules out the
64-bit shift guard firing, which encodings of values below 2^64 never
trigger. -/
theorem decodeVarintFrom_encode (x : Nat) : ∀ (restBytes : List Nat) (result shift pos : Nat),
    shift + 7 * ((encodeVarintNat x).length - 1) < 64 →
    decodeVarintFrom (encodeVarintNat x ++ restBytes) result shift pos
      = .ok (result ||| (x <<< shift), pos + (encodeVarintNat x).length) := by
  induction x using Nat.strong_induction_on with
  | _ x ih =>
    intro restBytes result shift pos h
    by_cases hx : 0x7F < x
    · have hd : x >>> 7 < x := by
        rw [Nat.shiftRight_eq_div_pow]
        exact Nat.div_lt_self (by omega) (by norm_num)
      have hL : encodeVarintNat x = ((x &&& 0x7F) ||| 0x80) :: encodeVarintNat (x >>> 7) := by
        rw [encodeVarintNat_eq, if_pos hx]
      have hlen : 1 ≤ (encodeVarintNat (x >>> 7)).length :=
        List.length_pos.mpr (encodeVarintNat_ne_nil _)
      rw [hL] at h ⊢
      simp only [List.length_cons] at h
      simp only [List.cons_append, decodeVarintFrom, List.append_eq]
      rw [if_neg (contbyte_has_high_bit x), if_neg (by omega)]
      rw [ih (x >>> 7) hd restBytes _ (shift + 7) (pos + 1) (by omega)]
      rw [and_or_contbyte, Nat.or_assoc, or_shift_decomp]
      simp only [List.length_cons]
      have hpos : pos + 1 + (encodeVarintNat (x >>> 7)).length
          = pos + ((encodeVarintNat (x >>> 7)).length + 1) := by omega
      rw [hpos]
    · have hL : encodeVarintNat x = [x] := by
        rw [encodeVarintNat_eq, if_neg hx]
      rw [hL]
      simp only [List.cons_append, List.nil_append, decodeVarintFrom]
      rw [if_pos (small_and_128 x (by omega)), small_and_127 x (by omega)]
      simp

/-- Below 2^64, encoding is encoding of the value reduced mod 2^64 (the
source only masks negative inputs; non-negative inputs below 2^64 are
already reduced). -/
theorem encode_varint_eq_mod (v : Int) (h₂ : v < 2 ^ 64) :
    encode_varint v = encodeVarintNat (v % ((2 : Int) ^ 64)).toNat := by
  unfold encode_varint
  by_cases hv : v < 0
  · rw [if_pos hv]
  · rw [if_neg hv]
    congr 1
    rw [Int.emod_eq_of_lt (by omega) (by omega)]

/-- C1: Varint round-trip.  For every integer `v` with `-2^63 ≤ v < 2^64`,
`decode_varint` at offset 0 on `encode_varint v` returns `v mod 2^64`
(two's-complement reduction of negative inputs) together with the length
of the encoded bytes. -/
theorem varint_roundtrip (v : Int) (hlo : -(2 ^ 63) ≤ v) (h₂ : v < 2 ^ 64) :
    decode_varint (encode_varint v) 0
      = .ok ((v % ((2 : Int) ^ 64)).toNat, (encode_varint v).length) := by
  have henc := encode_varint_eq_mod v h₂
  have h0 : (0 : Int) ≤ v % ((2 : Int) ^ 64) := Int.emod_nonneg v (by norm_num)
  have hlt : v % ((2 : Int) ^ 64) < 2 ^ 64 := Int.emod_lt_of_pos v (by norm_num)
  have hnlt : (v % ((2 : Int) ^ 64)).toNat < 2 ^ 64 := by omega
  have hpow : (2 : Nat) ^ 64 < 128 ^ (9 + 1) := by norm_num
  have hlen : (encodeVarintNat (v % ((2 : Int) ^ 64)).toNat).length ≤ 10 :=
    encodeVarintNat_length_le 9 _ (by omega)
  rw [henc]
  unfold decode_varint
  rw [List.drop_zero]
  have hdec := decodeVarintFrom_encode (v % ((2 : Int) ^ 64)).toNat [] 0 0 0 (by omega)
  rw [List.append_nil] at hdec
  rw [hdec, Nat.zero_or, Nat.shiftLeft_zero, Nat.zero_add]

/-- Witness for C1 at `v = -1` (ten `0xFF` bytes decode to `2^64 - 1`). -/
theorem varint_roundtrip_witness :
    decode_varint (encode_varint (-1)) 0 = .ok (18446744073709551615, 10) := by
  rw [varint_roundtrip (-1) (by decide) (by decide)]
  rfl

/-! ## Zigzag: constructor-level computation lemmas for Python's
arbitrary-precision two's-complement bitwise operators -/

/-- `xor` on two non-negative integers. -/
theorem int_xor_ofNat (a b : Nat) : Int.xor (Int.ofNat a) (Int.ofNat b) = Int.ofNat (a ^^^ b) :=
  rfl

/-- `xor` of a negative and a non-negative integer. -/
theorem int_xor_negSucc_ofNat (a b : Nat) :
    Int.xor (Int.negSucc a) (Int.ofNat b) = Int.negSucc (a ^^^ b) :=
  rfl

/-- `xor` of a non-negative and a negative integer. -/
theorem int_xor_ofNat_negSucc (a b : Nat) :
    Int.xor (Int.ofNat a) (Int.negSucc b) = Int.negSucc (a ^^^ b) :=
  rfl

/-- `xor` on two negative integers. -/
theorem int_xor_negSucc_negSucc (a b : Nat) :
    Int.xor (Int.negSucc a) (Int.negSucc b) = Int.ofNat (a ^^^ b) :=
  rfl

/-- `and` on two non-negative integers. -/
theorem int_land_ofNat (a b : Nat) : Int.land (Int.ofNat a) (Int.ofNat b) = Int.ofNat (a &&& b) :=
  rfl

/-- C2: the zigzag transform is an exact involution pair on the full
signed 64-bit range, including the minimum value `-2^63`. -/
theorem zigzag_involution (v : Int) (h₁ : -(2 ^ 63) ≤ v) (h₂ : v < 2 ^ 63) :
    zigzag_decode (zigzag_encode v) = v := by
  unfold zigzag_encode zigzag_decode
  rcases le_or_lt 0 v with hv | hv
  · obtain ⟨m, rfl⟩ := Int.eq_ofNat_of_zero_le hv
    have hm : m < 2 ^ 63 := by exact_mod_cast h₂
    have hone : (1 : Int) = ((1 : Nat) : Int) := rfl
    have h63 : (63 : Int) = ((63 : Nat) : Int) := rfl
    rw [hone, h63, Int.shiftLeft_coe_nat, Int.shiftRight_coe_nat]
    have hsr : m >>> 63 = 0 := by
      rw [Nat.shiftRight_eq_div_pow]
      exact Nat.div_eq_of_lt hm
    have hsl : m <<< 1 = 2 * m := by
      rw [Nat.shiftLeft_eq]
      ring
    rw [hsr, hsl]
    rw [show ((0 : Nat) : Int) = Int.ofNat 0 from rfl,
      show ((2 * m : Nat) : Int) = Int.ofNat (2 * m) from rfl,
      int_xor_ofNat, Nat.xor_zero]
    rw [show Int.ofNat (2 * m) = ((2 * m : Nat) : Int) from rfl]
    rw [Int.shiftRight_coe_nat]
    rw [show (2 * m) >>> 1 = m by rw [Nat.shiftRight_eq_div_pow]; omega]
    rw [show ((2 * m : Nat) : Int) = Int.ofNat (2 * m) from rfl,
      show ((1 : Nat) : Int) = Int.ofNat 1 from rfl, int_land_ofNat,
      show (2 * m) &&& 1 = 0 by rw [Nat.and_one_is_mod]; omega,
      show -Int.ofNat 0 = Int.ofNat 0 from rfl,
      show (m : Int) = Int.ofNat m from rfl, int_xor_ofNat, Nat.xor_zero]
  · obtain ⟨m, rfl⟩ := Int.eq_negSucc_of_lt_zero hv
    have hm : m < 2 ^ 63 := by
      rw [Int.negSucc_eq] at h₁
      have : (m : Int) < 2 ^ 63 := by omega
      exact_mod_cast this
    have hone : (1 : Int) = ((1 : Nat) : Int) := rfl
    have h63 : (63 : Int) = ((63 : Nat) : Int) := rfl
    rw [hone, h63, Int.shiftLeft_negSucc, Int.shiftRight_negSucc]
    have hsl : Nat.shiftLeft' true m 1 = 2 * m + 1 := by
      simp [Nat.shiftLeft', Nat.bit]
    have hsr : m >>> 63 = 0 := by
      rw [Nat.shiftRight_eq_div_pow]
      exact Nat.div_eq_of_lt hm
    rw [hsl, hsr, int_xor_negSucc_negSucc, Nat.xor_zero]
    rw [show Int.ofNat (2 * m + 1) = (((2 * m + 1 : Nat)) : Int) from rfl,
      Int.shiftRight_coe_nat]
    rw [show (2 * m + 1) >>> 1 = m by rw [Nat.shiftRight_eq_div_pow]; omega]
    rw [show ((2 * m + 1 : Nat) : Int) = Int.ofNat (2 * m + 1) from rfl,
      show ((1 : Nat) : Int) = Int.ofNat 1 from rfl, int_land_ofNat,
      show (2 * m + 1) &&& 1 = 1 by rw [Nat.and_one_is_mod]; omega,
      show -Int.ofNat 1 = Int.negSucc 0 from rfl,
      show (m : Int) = Int.ofNat m from rfl, int_xor_ofNat_negSucc, Nat.xor_zero]

/-- Witness for C2 at the minimum value `v = -2^63`. -/
theorem zigzag_involution_witness :
    zigzag_decode (zigzag_encode (-(2 ^ 63))) = -(2 ^ 63) :=
  zigzag_involution (-(2 ^ 63)) (by decide) (by decide)

/-- C10: `decode_varint` does not bound its result to 64 bits: the
10-byte input `80 80 80 80 80 80 80 80 80 02` (nine continuation bytes,
terminator with value 2 > 1) decodes to `2^64`; the overflow error fires
only when a continuation bit demands an 11th byte. -/
theorem decode_varint_result_not_64_bit_bounded :
    decode_varint [0x80, 0x80, 0x80, 0x80, 0x80, 0x80, 0x80, 0x80, 0x80, 0x02] 0
        = .ok (2 ^ 64, 10)
    ∧ decode_varint [0x80, 0x80, 0x80, 0x80, 0x80, 0x80, 0x80, 0x80, 0x80, 0x80, 0x01] 0
        = .error "varint too long" := by
  exact ⟨by decide, by decide⟩

/-! ## Tag codec -/

/-- Bit decomposition of a tag: recovering the field number and the low
three bits from `(n <<< 3) ||| b` for `b < 8`. -/
theorem tag_decomp (n b : Nat) (hb : b < 8) :
    ((n <<< 3) ||| b) >>> 3 = n ∧ ((n <<< 3) ||| b) &&& 7 = b := by
  constructor
  · apply Nat.eq_of_testBit_eq
    intro i
    simp only [Nat.testBit_shiftRight, Nat.testBit_or, Nat.testBit_shiftLeft, ge_iff_le]
    have hbi : b.testBit (3 + i) = false :=
      Nat.testBit_lt_two_pow (lt_of_lt_of_le hb (by
        calc (8 : Nat) = 2 ^ 3 := by norm_num
          _ ≤ 2 ^ (3 + i) := Nat.pow_le_pow_right (by norm_num) (by omega)))
    have h3 : 3 ≤ 3 + i := by omega
    have hsub : 3 + i - 3 = i := by omega
    simp [hbi, h3, hsub]
  · apply Nat.eq_of_testBit_eq
    intro i
    have h7 : (7 : Nat) = 2 ^ 3 - 1 := by norm_num
    rw [h7]
    simp only [Nat.testBit_and, Nat.testBit_or, Nat.testBit_shiftLeft,
      Nat.testBit_two_pow_sub_one, ge_iff_le]
    by_cases hi : i < 3
    · have hn : ¬ 3 ≤ i := by omega
      simp [hi, hn]
    · have hbi : b.testBit i = false :=
        Nat.testBit_lt_two_pow (lt_of_lt_of_le hb (by
          calc (8 : Nat) = 2 ^ 3 := by norm_num
            _ ≤ 2 ^ i := Nat.pow_le_pow_right (by norm_num) (by omega)))
      simp [hi, hbi]


/-- `WireType.fromValue` inverts `WireType.toNat`. -/
theorem fromValue_toNat (w : WireType) : WireType.fromValue w.toNat = some w := by
  cases w <;> rfl

/-- Counterexample to C3 as stated: `parse_tag` enforces no upper bound
on the field number (tag `2^32` carries field number `2^29`, above the
`2^29 - 1` ceiling, yet parses successfully), and a reserved wire type
with field number 0 (tag 3) raises the field-number error, not the
wire-type error. -/
theorem parse_tag_counterexample :
    parse_tag 4294967296 = .ok (536870912, .VARINT)
    ∧ (2 ^ 29 - 1 : Nat) < 536870912
    ∧ parse_tag 3 = .error "invalid field number" := by
  exact ⟨by decide, by decide, by decide⟩

/-- C3 (amended): `parse_tag` raises the invalid-field-number error
exactly when `tag >>> 3 = 0`; for a non-zero field number it raises the
invalid-wire-type error when the low three bits are reserved (3, 4, 6,
7), and succeeds with `(tag >>> 3, w)` whenever the low three bits
denote a valid wire type `w` — with no upper bound on the field number,
so every tag carrying a field number above `2^29 - 1` and a valid wire
type parses successfully; and for every field number in `[1, 2^29 - 1]`
and wire type in {0,1,2,5}, `parse_tag` inverts `make_tag`. -/
theorem parse_tag_spec (tag n : Nat) (w : WireType) :
    (tag >>> 3 = 0 → parse_tag tag = .error "invalid field number")
    ∧ (1 ≤ tag >>> 3 →
        tag &&& 7 = 3 ∨ tag &&& 7 = 4 ∨ tag &&& 7 = 6 ∨ tag &&& 7 = 7 →
        parse_tag tag = .error "invalid wire type")
    ∧ (1 ≤ tag >>> 3 → WireType.fromValue (tag &&& 7) = some w →
        parse_tag tag = .ok (tag >>> 3, w))
    ∧ (1 ≤ n → n ≤ 2 ^ 29 - 1 →
        make_tag n w = .ok ((n <<< 3) ||| w.toNat)
        ∧ parse_tag ((n <<< 3) ||| w.toNat) = .ok (n, w)) := by
  refine ⟨?_, ?_, ?_, ?_⟩
  · intro h0
    unfold parse_tag
    rw [if_pos (by omega)]
  · intro h1 hres
    unfold parse_tag
    rw [if_neg (by omega)]
    rcases hres with h | h | h | h <;> rw [h] <;> rfl
  · intro h1 hw2
    unfold parse_tag
    rw [if_neg (by omega), hw2]
  · intro hl hu
    have hc : (2 : Nat) ^ 29 - 1 = 0x1FFFFFFF := by norm_num
    have hw : w.toNat < 8 := by cases w <;> decide
    have hd := tag_decomp n w.toNat hw
    constructor
    · unfold make_tag
      rw [if_neg (by omega), if_neg (by omega)]
    · unfold parse_tag
      rw [hd.2, hd.1, if_neg (by omega), fromValue_toNat]

/-- Witness for C3 (amended), discharging each hypothesis at concrete
inputs: tag 0 (field number 0), tag 11 (field number 1, wire type 3),
tag `2^32` (field number `2^29`, above the ceiling, wire type 0), and
the round trip at field number 1 with wire type VARINT. -/
theorem parse_tag_spec_witness :
    parse_tag 0 = .error "invalid field number"
    ∧ parse_tag 11 = .error "invalid wire type"
    ∧ parse_tag 4294967296 = .ok (536870912, .VARINT)
    ∧ make_tag 1 .VARINT = .ok 8
    ∧ parse_tag 8 = .ok (1, .VARINT) := by
  refine ⟨(parse_tag_spec 0 1 .VARINT).1 (by decide),
    (parse_tag_spec 11 1 .VARINT).2.1 (by decide) (by decide),
    (parse_tag_spec 4294967296 1 .VARINT).2.2.1 (by decide) (by decide),
    ?_, ?_⟩
  · exact ((parse_tag_spec 8 1 .VARINT).2.2.2 (by decide) (by decide)).1
  · exact ((parse_tag_spec 8 1 .VARINT).2.2.2 (by decide) (by decide)).2

/-! ## Nested writer finalisation (C4) -/

/-- Counterexample to C4 as stated: a context-manager exit with a
pending exception does NOT append the child to the parent (`__exit__`
writes only when `exc_type is None`): with a non-empty child, the parent
buffer stays empty rather than receiving tag, length and payload. -/
theorem writer_exit_exceptional_counterexample :
    Writer.exit ⟨[8, 1]⟩ ⟨[]⟩ 2 true = (⟨[]⟩, none)
    ∧ ([] : List Nat) ≠ [18, 2, 8, 1] := by
  exact ⟨by decide, by decide⟩

/-- C4 (amended): a child writer created by `message` starts empty;
closing it via explicit `end()` or via a non-exceptional context-manager
exit appends exactly the LEN tag, the varint length of the child buffer,
and the child buffer to the parent; an exceptional exit appends
nothing. -/
theorem writer_end_appends (parent child : Writer) (fn : Nat)
    (h₁ : 1 ≤ fn) (h₂ : fn ≤ 2 ^ 29 - 1) :
    parent.message fn = ⟨[]⟩
    ∧ child.end parent fn
        = (⟨parent.buffer ++ encode_varint (((fn <<< 3) ||| 2 : Nat) : Int)
            ++ encode_varint (child.buffer.length : Int) ++ child.buffer⟩, none)
    ∧ Writer.exit child parent fn false
        = (⟨parent.buffer ++ encode_varint (((fn <<< 3) ||| 2 : Nat) : Int)
            ++ encode_varint (child.buffer.length : Int) ++ child.buffer⟩, none)
    ∧ Writer.exit child parent fn true = (parent, none) := by
  have hc : (2 : Nat) ^ 29 - 1 = 0x1FFFFFFF := by norm_num
  have hmt : make_tag fn .LEN = .ok ((fn <<< 3) ||| 2) := by
    unfold make_tag
    rw [if_neg (by omega), if_neg (by omega)]
    rfl
  refine ⟨rfl, ?_, ?_, rfl⟩
  · unfold Writer.end
    rw [hmt]
  · unfold Writer.exit Writer.end
    rw [if_neg (by simp), hmt]

/-- Witness for C4 (amended) at field number 2 with a two-byte child. -/
theorem writer_end_appends_witness :
    Writer.end ⟨[8, 1]⟩ ⟨[]⟩ 2 = (⟨[18, 2, 8, 1]⟩, none)
    ∧ Writer.exit ⟨[8, 1]⟩ ⟨[]⟩ 2 false = (⟨[18, 2, 8, 1]⟩, none)
    ∧ Writer.exit ⟨[8, 1]⟩ ⟨[]⟩ 2 true = (⟨[]⟩, none) := by
  have h := writer_end_appends ⟨[]⟩ ⟨[8, 1]⟩ 2 (by decide) (by decide)
  refine ⟨?_, ?_, h.2.2.2⟩
  · rw [h.2.1]
    rfl
  · rw [h.2.2.1]
    rfl

/-! ## Writer-side write atomicity (C5) -/

/-- Counterexample to C5 as stated: `sfixed32` with an out-of-range value
raises (`struct.error`) only AFTER the tag byte has been appended, so the
buffer is not unchanged (it gains the dangling tag byte 13). -/
theorem writer_sfixed32_counterexample :
    (Writer.sfixed32 ⟨[]⟩ 1 (2 ^ 31)).2 = some "argument out of range"
    ∧ (Writer.sfixed32 ⟨[]⟩ 1 (2 ^ 31)).1.buffer = [13]
    ∧ [13] ≠ ([] : List Nat) := by
  exact ⟨by decide, by decide, by decide⟩

/-- C5 (amended): a write that raises because the field number is outside
`[1, 2^29 - 1]` appends nothing (this holds for every write method; a
packed method with an empty list returns before validating anything, so
the non-empty case is stated); but an out-of-range value error in
`sfixed32`/`sfixed64` is raised by `struct.pack` only after the tag has
been appended, leaving the buffer extended by exactly the tag bytes. -/
theorem writer_error_atomicity (w : Writer) (fn : Nat) (v : Int) (bits : Nat)
    (bs nvs : List Nat) (vs : List Int) (bvs : List Bool) (b : Bool) :
    ((fn < 1 ∨ 2 ^ 29 - 1 < fn) →
      ((w.int32 fn v).1 = w ∧ (w.int32 fn v).2.isSome = true)
      ∧ ((w.int64 fn v).1 = w ∧ (w.int64 fn v).2.isSome = true)
      ∧ ((w.uint32 fn v).1 = w ∧ (w.uint32 fn v).2.isSome = true)
      ∧ ((w.uint64 fn v).1 = w ∧ (w.uint64 fn v).2.isSome = true)
      ∧ ((w.sint32 fn v).1 = w ∧ (w.sint32 fn v).2.isSome = true)
      ∧ ((w.sint64 fn v).1 = w ∧ (w.sint64 fn v).2.isSome = true)
      ∧ ((w.bool fn b).1 = w ∧ (w.bool fn b).2.isSome = true)
      ∧ ((w.enum fn v).1 = w ∧ (w.enum fn v).2.isSome = true)
      ∧ ((w.fixed64 fn v).1 = w ∧ (w.fixed64 fn v).2.isSome = true)
      ∧ ((w.sfixed64 fn v).1 = w ∧ (w.sfixed64 fn v).2.isSome = true)
      ∧ ((w.double fn bits).1 = w ∧ (w.double fn bits).2.isSome = true)
      ∧ ((w.fixed32 fn v).1 = w ∧ (w.fixed32 fn v).2.isSome = true)
      ∧ ((w.sfixed32 fn v).1 = w ∧ (w.sfixed32 fn v).2.isSome = true)
      ∧ ((w.float fn bits).1 = w ∧ (w.float fn bits).2.isSome = true)
      ∧ ((w.string fn bs).1 = w ∧ (w.string fn bs).2.isSome = true)
      ∧ ((w.bytes fn bs).1 = w ∧ (w.bytes fn bs).2.isSome = true)
      ∧ ((w.packed_int32s fn (v :: vs)).1 = w ∧ (w.packed_int32s fn (v :: vs)).2.isSome = true)
      ∧ ((w.packed_int64s fn (v :: vs)).1 = w ∧ (w.packed_int64s fn (v :: vs)).2.isSome = true)
      ∧ ((w.packed_uint32s fn (v :: vs)).1 = w ∧ (w.packed_uint32s fn (v :: vs)).2.isSome = true)
      ∧ ((w.packed_uint64s fn (v :: vs)).1 = w ∧ (w.packed_uint64s fn (v :: vs)).2.isSome = true)
      ∧ ((w.packed_sint32s fn (v :: vs)).1 = w ∧ (w.packed_sint32s fn (v :: vs)).2.isSome = true)
      ∧ ((w.packed_sint64s fn (v :: vs)).1 = w ∧ (w.packed_sint64s fn (v :: vs)).2.isSome = true)
      ∧ ((w.packed_bools fn (b :: bvs)).1 = w ∧ (w.packed_bools fn (b :: bvs)).2.isSome = true)
      ∧ ((w.packed_fixed32s fn (v :: vs)).1 = w ∧ (w.packed_fixed32s fn (v :: vs)).2.isSome = true)
      ∧ ((w.packed_sfixed32s fn (v :: vs)).1 = w
          ∧ (w.packed_sfixed32s fn (v :: vs)).2.isSome = true)
      ∧ ((w.packed_floats fn (bits :: nvs)).1 = w
          ∧ (w.packed_floats fn (bits :: nvs)).2.isSome = true)
      ∧ ((w.packed_fixed64s fn (v :: vs)).1 = w ∧ (w.packed_fixed64s fn (v :: vs)).2.isSome = true)
      ∧ ((w.packed_sfixed64s fn (v :: vs)).1 = w
          ∧ (w.packed_sfixed64s fn (v :: vs)).2.isSome = true)
      ∧ ((w.packed_doubles fn (bits :: nvs)).1 = w
          ∧ (w.packed_doubles fn (bits :: nvs)).2.isSome = true))
    ∧ (1 ≤ fn → fn ≤ 2 ^ 29 - 1 → (v < -(2 ^ 31) ∨ (2 ^ 31) ≤ v) →
        w.sfixed32 fn v = (⟨w.buffer ++ encode_varint (((fn <<< 3) ||| 5 : Nat) : Int)⟩,
          some "argument out of range"))
    ∧ (1 ≤ fn → fn ≤ 2 ^ 29 - 1 → (v < -(2 ^ 63) ∨ (2 ^ 63) ≤ v) →
        w.sfixed64 fn v = (⟨w.buffer ++ encode_varint (((fn <<< 3) ||| 1 : Nat) : Int)⟩,
          some "argument out of range")) := by
  have hc : (2 : Nat) ^ 29 - 1 = 0x1FFFFFFF := by norm_num
  refine ⟨?_, ?_, ?_⟩
  · intro hbad
    have hmt : ∀ wt : WireType, ∃ e, make_tag fn wt = .error e := by
      intro wt
      unfold make_tag
      rcases hbad with h | h
      · exact ⟨_, by rw [if_pos h]⟩
      · exact ⟨_, by rw [if_neg (by omega), if_pos (by omega)]⟩
    have hwt : ∀ (wt : WireType) (payload : List Nat),
        (w.writeTagged fn wt payload).1 = w ∧ (w.writeTagged fn wt payload).2.isSome = true := by
      intro wt payload
      obtain ⟨e, he⟩ := hmt wt
      unfold Writer.writeTagged
      rw [he]
      exact ⟨rfl, rfl⟩
    have hwp : ∀ packed : List Nat,
        (w.writePacked fn packed).1 = w ∧ (w.writePacked fn packed).2.isSome = true := by
      intro packed
      obtain ⟨e, he⟩ := hmt .LEN
      unfold Writer.writePacked
      rw [he]
      exact ⟨rfl, rfl⟩
    obtain ⟨e32, he32⟩ := hmt .FIXED32
    obtain ⟨e64, he64⟩ := hmt .FIXED64
    obtain ⟨eLEN, heLEN⟩ := hmt .LEN
    refine ⟨hwt _ _, hwt _ _, hwt _ _, hwt _ _, hwt _ _, hwt _ _, hwt _ _, hwt _ _, hwt _ _,
      ?_, hwt _ _, hwt _ _, ?_, hwt _ _, hwt _ _, hwt _ _,
      hwp _, hwp _, hwp _, hwp _, hwp _, hwp _, hwp _,
      ?_, ?_, ?_, ?_, ?_, ?_⟩
    · simp [Writer.sfixed64, he64]
    · simp [Writer.sfixed32, he32]
    · simp [Writer.packed_fixed32s, heLEN]
    · simp [Writer.packed_sfixed32s, heLEN]
    · simp [Writer.packed_floats, heLEN]
    · simp [Writer.packed_fixed64s, heLEN]
    · simp [Writer.packed_sfixed64s, heLEN]
    · simp [Writer.packed_doubles, heLEN]
  · intro hl hu hv
    have hmt5 : make_tag fn .FIXED32 = .ok ((fn <<< 3) ||| 5) := by
      unfold make_tag
      rw [if_neg (by omega), if_neg (by omega)]
      rfl
    unfold Writer.sfixed32
    rw [hmt5]
    simp only []
    rw [if_pos hv]
  · intro hl hu hv
    have hmt1 : make_tag fn .FIXED64 = .ok ((fn <<< 3) ||| 1) := by
      unfold make_tag
      rw [if_neg (by omega), if_neg (by omega)]
      rfl
    unfold Writer.sfixed64
    rw [hmt1]
    simp only []
    rw [if_pos hv]

/-- Witness for C5 (amended): a bad field number appends nothing; an
out-of-range `sfixed32`/`sfixed64` value leaves exactly the dangling tag. -/
theorem writer_error_atomicity_witness :
    ((Writer.int32 ⟨[]⟩ 0 5).1 = ⟨[]⟩ ∧ (Writer.int32 ⟨[]⟩ 0 5).2.isSome = true)
    ∧ Writer.sfixed32 ⟨[]⟩ 1 (2 ^ 31) = (⟨[13]⟩, some "argument out of range")
    ∧ Writer.sfixed64 ⟨[]⟩ 1 (2 ^ 63) = (⟨[9]⟩, some "argument out of range") := by
  refine ⟨((writer_error_atomicity ⟨[]⟩ 0 5 0 [] [] [] [] true).1 (by norm_num)).1, ?_, ?_⟩
  · rw [(writer_error_atomicity ⟨[]⟩ 1 (2 ^ 31) 0 [] [] [] [] true).2.1
      (by norm_num) (by norm_num) (by norm_num)]
    rfl
  · rw [(writer_error_atomicity ⟨[]⟩ 1 (2 ^ 63) 0 [] [] [] [] true).2.2
      (by norm_num) (by norm_num) (by norm_num)]
    rfl

/-! ## Empty packed repeated fields (C8) -/

/-- C8: every packed write method called with an empty list leaves the
buffer byte-for-byte unchanged (no tag, no length), and every packed
accessor on a LEN field with an empty payload returns the empty list. -/
theorem packed_empty_round_trip (w : Writer) (fn g : Nat) :
    w.packed_int32s fn [] = (w, none)
    ∧ w.packed_int64s fn [] = (w, none)
    ∧ w.packed_uint32s fn [] = (w, none)
    ∧ w.packed_uint64s fn [] = (w, none)
    ∧ w.packed_sint32s fn [] = (w, none)
    ∧ w.packed_sint64s fn [] = (w, none)
    ∧ w.packed_bools fn [] = (w, none)
    ∧ w.packed_fixed32s fn [] = (w, none)
    ∧ w.packed_sfixed32s fn [] = (w, none)
    ∧ w.packed_floats fn [] = (w, none)
    ∧ w.packed_fixed64s fn [] = (w, none)
    ∧ w.packed_sfixed64s fn [] = (w, none)
    ∧ w.packed_doubles fn [] = (w, none)
    ∧ Field.packed_int32s ⟨g, .LEN, [], none⟩ = .ok []
    ∧ Field.packed_int64s ⟨g, .LEN, [], none⟩ = .ok []
    ∧ Field.packed_uint32s ⟨g, .LEN, [], none⟩ = .ok []
    ∧ Field.packed_uint64s ⟨g, .LEN, [], none⟩ = .ok []
    ∧ Field.packed_sint32s ⟨g, .LEN, [], none⟩ = .ok []
    ∧ Field.packed_sint64s ⟨g, .LEN, [], none⟩ = .ok []
    ∧ Field.packed_bools ⟨g, .LEN, [], none⟩ = .ok []
    ∧ Field.packed_fixed32s ⟨g, .LEN, [], none⟩ = .ok []
    ∧ Field.packed_sfixed32s ⟨g, .LEN, [], none⟩ = .ok []
    ∧ Field.packed_floats ⟨g, .LEN, [], none⟩ = .ok []
    ∧ Field.packed_fixed64s ⟨g, .LEN, [], none⟩ = .ok []
    ∧ Field.packed_sfixed64s ⟨g, .LEN, [], none⟩ = .ok []
    ∧ Field.packed_doubles ⟨g, .LEN, [], none⟩ = .ok [] := by
  exact ⟨rfl, rfl, rfl, rfl, rfl, rfl, rfl, rfl, rfl, rfl, rfl, rfl, rfl,
    rfl, rfl, rfl, rfl, rfl, rfl, rfl, rfl, rfl, rfl, rfl, rfl, rfl⟩

/-! ## Concrete four-field scenario (C9) -/

/-- C9: writing field 1 = string "hello world", field 2 = int64
1234567890, field 3 = bool true, field 4 = double 3.14159265358979
(IEEE-754 bits 4614256656552045841), then reading the finished buffer,
yields exactly those four fields in order, with the matching accessor
values, after which `next_field` returns `None`.  Strings are their
UTF-8 bytes; doubles are their bit patterns (see the module comment). -/
theorem four_field_scenario :
    (let msg : List Nat := [10, 11, 104, 101, 108, 108, 111, 32, 119, 111, 114, 108, 100,
       16, 210, 133, 216, 204, 4, 24, 1, 33, 17, 45, 68, 84, 251, 33, 9, 64]
     let s1 := Writer.new.string 1 [104, 101, 108, 108, 111, 32, 119, 111, 114, 108, 100]
     let s2 := s1.1.int64 2 1234567890
     let s3 := s2.1.bool 3 true
     let s4 := s3.1.double 4 4614256656552045841
     s1.2 = none ∧ s2.2 = none ∧ s3.2 = none ∧ s4.2 = none
     ∧ s4.1.finish = msg
     ∧ Reader.next_field ⟨msg, 0⟩
         = .ok (some (⟨1, .LEN, [104, 101, 108, 108, 111, 32, 119, 111, 114, 108, 100], none⟩,
             ⟨msg, 13⟩))
     ∧ Field.string ⟨1, .LEN, [104, 101, 108, 108, 111, 32, 119, 111, 114, 108, 100], none⟩
         = .ok [104, 101, 108, 108, 111, 32, 119, 111, 114, 108, 100]
     ∧ Reader.next_field ⟨msg, 13⟩
         = .ok (some (⟨2, .VARINT, [], some 1234567890⟩, ⟨msg, 19⟩))
     ∧ Field.int64 ⟨2, .VARINT, [], some 1234567890⟩ = .ok 1234567890
     ∧ Reader.next_field ⟨msg, 19⟩ = .ok (some (⟨3, .VARINT, [], some 1⟩, ⟨msg, 21⟩))
     ∧ Field.bool ⟨3, .VARINT, [], some 1⟩ = .ok true
     ∧ Reader.next_field ⟨msg, 21⟩
         = .ok (some (⟨4, .FIXED64, [], some 4614256656552045841⟩, ⟨msg, 30⟩))
     ∧ Field.double ⟨4, .FIXED64, [], some 4614256656552045841⟩ = .ok 4614256656552045841
     ∧ Reader.next_field ⟨msg, 30⟩ = .ok none) := by
  decide

/-! ## Packed fixed-width accessors (C7) -/

/-- `chunksLE4` always produces the floor of `length/4` elements. -/
theorem chunksLE4_length (data : List Nat) : (chunksLE4 data).length = data.length / 4 := by
  induction data using chunksLE4.induct with
  | case1 b0 b1 b2 b3 restBytes ih =>
    simp only [chunksLE4, List.length_cons, ih]
    omega
  | case2 data h =>
    match data, h with
    | [], _ => rw [show chunksLE4 [] = [] from rfl]; simp
    | [b0], _ => rw [show chunksLE4 [b0] = [] from rfl]; simp
    | [b0, b1], _ => rw [show chunksLE4 [b0, b1] = [] from rfl]; simp
    | [b0, b1, b2], _ => rw [show chunksLE4 [b0, b1, b2] = [] from rfl]; simp
    | b0 :: b1 :: b2 :: b3 :: rest, h => exact (h b0 b1 b2 b3 rest rfl).elim

/-- `chunksLE8` always produces the floor of `length/8` elements. -/
theorem chunksLE8_length (data : List Nat) : (chunksLE8 data).length = data.length / 8 := by
  induction data using chunksLE8.induct with
  | case1 b0 b1 b2 b3 b4 b5 b6 b7 restBytes ih =>
    simp only [chunksLE8, List.length_cons, ih]
    omega
  | case2 data h =>
    match data, h with
    | [], _ => rw [show chunksLE8 [] = [] from rfl]; simp
    | [b0], _ => rw [show chunksLE8 [b0] = [] from rfl]; simp
    | [b0, b1], _ => rw [show chunksLE8 [b0, b1] = [] from rfl]; simp
    | [b0, b1, b2], _ => rw [show chunksLE8 [b0, b1, b2] = [] from rfl]; simp
    | [b0, b1, b2, b3], _ => rw [show chunksLE8 [b0, b1, b2, b3] = [] from rfl]; simp
    | [b0, b1, b2, b3, b4], _ => rw [show chunksLE8 [b0, b1, b2, b3, b4] = [] from rfl]; simp
    | [b0, b1, b2, b3, b4, b5], _ =>
        rw [show chunksLE8 [b0, b1, b2, b3, b4, b5] = [] from rfl]; simp
    | [b0, b1, b2, b3, b4, b5, b6], _ =>
        rw [show chunksLE8 [b0, b1, b2, b3, b4, b5, b6] = [] from rfl]; simp
    | b0 :: b1 :: b2 :: b3 :: b4 :: b5 :: b6 :: b7 :: rest, h =>
        exact (h b0 b1 b2 b3 b4 b5 b6 b7 rest rfl).elim

/-- Element `i` of `chunksLE4` is the little-endian value of bytes
`4i .. 4i+3`: the chunks appear in payload order. -/
theorem chunksLE4_get (data : List Nat) : ∀ i : Nat, i < data.length / 4 →
    (chunksLE4 data)[i]? = some (leValue 4 ((data.drop (4 * i)).take 4)) := by
  induction data using chunksLE4.induct with
  | case1 b0 b1 b2 b3 restBytes ih =>
    intro i hi
    cases i with
    | zero =>
      rw [show chunksLE4 (b0 :: b1 :: b2 :: b3 :: restBytes)
        = leValue 4 [b0, b1, b2, b3] :: chunksLE4 restBytes from rfl]
      rw [List.getElem?_cons_zero]
      rfl
    | succ j =>
      simp only [List.length_cons] at hi
      have hj : j < restBytes.length / 4 := by omega
      have hd : (b0 :: b1 :: b2 :: b3 :: restBytes).drop (4 * (j + 1))
          = restBytes.drop (4 * j) := by
        have h4 : 4 * (j + 1) = 4 * j + 4 := by ring
        rw [h4]
        rw [show 4 * j + 4 = (((4 * j + 1) + 1) + 1) + 1 from by ring]
        simp [List.drop_succ_cons]
      rw [show chunksLE4 (b0 :: b1 :: b2 :: b3 :: restBytes)
        = leValue 4 [b0, b1, b2, b3] :: chunksLE4 restBytes from rfl]
      rw [List.getElem?_cons_succ, hd]
      exact ih j hj
  | case2 data h =>
    intro i hi
    exfalso
    match data, h with
    | [], _ => exact absurd hi (by simp)
    | [b0], _ => exact absurd hi (by simp)
    | [b0, b1], _ => exact absurd hi (by simp)
    | [b0, b1, b2], _ => exact absurd hi (by simp)
    | b0 :: b1 :: b2 :: b3 :: rest, h => exact (h b0 b1 b2 b3 rest rfl).elim

/-- Element `i` of `chunksLE8` is the little-endian value of bytes
`8i .. 8i+7`. -/
theorem chunksLE8_get (data : List Nat) : ∀ i : Nat, i < data.length / 8 →
    (chunksLE8 data)[i]? = some (leValue 8 ((data.drop (8 * i)).take 8)) := by
  induction data using chunksLE8.induct with
  | case1 b0 b1 b2 b3 b4 b5 b6 b7 restBytes ih =>
    intro i hi
    cases i with
    | zero =>
      rw [show chunksLE8 (b0 :: b1 :: b2 :: b3 :: b4 :: b5 :: b6 :: b7 :: restBytes)
        = leValue 8 [b0, b1, b2, b3, b4, b5, b6, b7] :: chunksLE8 restBytes from rfl]
      rw [List.getElem?_cons_zero]
      rfl
    | succ j =>
      simp only [List.length_cons] at hi
      have hj : j < restBytes.length / 8 := by omega
      have hd : (b0 :: b1 :: b2 :: b3 :: b4 :: b5 :: b6 :: b7 :: restBytes).drop (8 * (j + 1))
          = restBytes.drop (8 * j) := by
        rw [show 8 * (j + 1) = (((((((8 * j + 1) + 1) + 1) + 1) + 1) + 1) + 1) + 1 from by ring]
        simp [List.drop_succ_cons]
      rw [show chunksLE8 (b0 :: b1 :: b2 :: b3 :: b4 :: b5 :: b6 :: b7 :: restBytes)
        = leValue 8 [b0, b1, b2, b3, b4, b5, b6, b7] :: chunksLE8 restBytes from rfl]
      rw [List.getElem?_cons_succ, hd]
      exact ih j hj
  | case2 data h =>
    intro i hi
    exfalso
    match data, h with
    | [], _ => exact absurd hi (by simp)
    | [b0], _ => exact absurd hi (by simp)
    | [b0, b1], _ => exact absurd hi (by simp)
    | [b0, b1, b2], _ => exact absurd hi (by simp)
    | [b0, b1, b2, b3], _ => exact absurd hi (by simp)
    | [b0, b1, b2, b3, b4], _ => exact absurd hi (by simp)
    | [b0, b1, b2, b3, b4, b5], _ => exact absurd hi (by simp)
    | [b0, b1, b2, b3, b4, b5, b6], _ => exact absurd hi (by simp)
    | b0 :: b1 :: b2 :: b3 :: b4 :: b5 :: b6 :: b7 :: rest, h =>
        exact (h b0 b1 b2 b3 b4 b5 b6 b7 rest rfl).elim

/-- C7: each packed fixed32-family accessor (`packed_fixed32s`,
`packed_sfixed32s`, `packed_floats`) raises the packed-length-mismatch
error exactly when the payload length is not a multiple of 4, and each
fixed64-family accessor (`packed_fixed64s`, `packed_sfixed64s`,
`packed_doubles`) exactly when it is not a multiple of 8; on an exact
multiple they return the `length/4` (resp. `length/8`) little-endian
chunks in payload order (floats and doubles as bit patterns). -/
theorem packed_fixed_length_checks (g : Nat) (data : List Nat) :
    (Field.packed_fixed32s ⟨g, .LEN, data, none⟩
        = if data.length % 4 = 0 then .ok (chunksLE4 data)
          else .error "packed fixed32 data length not a multiple of 4")
    ∧ (Field.packed_sfixed32s ⟨g, .LEN, data, none⟩
        = if data.length % 4 = 0 then .ok ((chunksLE4 data).map signExtend32)
          else .error "packed sfixed32 data length not a multiple of 4")
    ∧ (Field.packed_floats ⟨g, .LEN, data, none⟩
        = if data.length % 4 = 0 then .ok (chunksLE4 data)
          else .error "packed float data length not a multiple of 4")
    ∧ (Field.packed_fixed64s ⟨g, .LEN, data, none⟩
        = if data.length % 8 = 0 then .ok (chunksLE8 data)
          else .error "packed fixed64 data length not a multiple of 8")
    ∧ (Field.packed_sfixed64s ⟨g, .LEN, data, none⟩
        = if data.length % 8 = 0 then .ok ((chunksLE8 data).map signExtend64)
          else .error "packed sfixed64 data length not a multiple of 8")
    ∧ (Field.packed_doubles ⟨g, .LEN, data, none⟩
        = if data.length % 8 = 0 then .ok (chunksLE8 data)
          else .error "packed double data length not a multiple of 8")
    ∧ (chunksLE4 data).length = data.length / 4
    ∧ (chunksLE8 data).length = data.length / 8
    ∧ (∀ i : Nat, i < data.length / 4 →
        (chunksLE4 data)[i]? = some (leValue 4 ((data.drop (4 * i)).take 4)))
    ∧ (∀ i : Nat, i < data.length / 8 →
        (chunksLE8 data)[i]? = some (leValue 8 ((data.drop (8 * i)).take 8))) := by
  refine ⟨?_, ?_, ?_, ?_, ?_, ?_, chunksLE4_length data, chunksLE8_length data,
    chunksLE4_get data, chunksLE8_get data⟩
  · unfold Field.packed_fixed32s
    rw [if_neg (by simp)]
    rcases eq_or_ne (data.length % 4) 0 with h4 | h4 <;> simp [h4]
  · unfold Field.packed_sfixed32s
    rw [if_neg (by simp)]
    rcases eq_or_ne (data.length % 4) 0 with h4 | h4 <;> simp [h4]
  · unfold Field.packed_floats
    rw [if_neg (by simp)]
    rcases eq_or_ne (data.length % 4) 0 with h4 | h4 <;> simp [h4]
  · unfold Field.packed_fixed64s
    rw [if_neg (by simp)]
    rcases eq_or_ne (data.length % 8) 0 with h8 | h8 <;> simp [h8]
  · unfold Field.packed_sfixed64s
    rw [if_neg (by simp)]
    rcases eq_or_ne (data.length % 8) 0 with h8 | h8 <;> simp [h8]
  · unfold Field.packed_doubles
    rw [if_neg (by simp)]
    rcases eq_or_ne (data.length % 8) 0 with h8 | h8 <;> simp [h8]

/-- Witness for C7 at a 4-byte payload (one chunk) and a 2-byte payload
(length mismatch). -/
theorem packed_fixed_length_checks_witness :
    Field.packed_fixed32s ⟨1, .LEN, [7, 0, 0, 0], none⟩ = .ok [7]
    ∧ Field.packed_fixed32s ⟨1, .LEN, [7, 0], none⟩
        = .error "packed fixed32 data length not a multiple of 4"
    ∧ Field.packed_doubles ⟨1, .LEN, [7, 0], none⟩
        = .error "packed double data length not a multiple of 8"
    ∧ (chunksLE4 [7, 0, 0, 0])[0]? = some (leValue 4 (([7, 0, 0, 0].drop (4 * 0)).take 4)) := by
  refine ⟨?_, ?_, ?_, ?_⟩
  · rw [(packed_fixed_length_checks 1 [7, 0, 0, 0]).1]
    decide
  · rw [(packed_fixed_length_checks 1 [7, 0]).1]
    decide
  · rw [(packed_fixed_length_checks 1 [7, 0]).2.2.2.2.2.1]
    decide
  · exact (packed_fixed_length_checks 1 [7, 0, 0, 0]).2.2.2.2.2.2.2.2.1 0 (by decide)

/-! ## Truncation behaviour (C6) -/

/-- A successful varint decode advances the position by at least one byte
and consumes at most the available bytes. -/
theorem decodeVarintFrom_ok_bounds :
    ∀ (l : List Nat) (r s pos v p : Nat), decodeVarintFrom l r s pos = .ok (v, p) →
      pos < p ∧ p ≤ pos + l.length := by
  intro l
  induction l with
  | nil =>
    intro r s pos v p h
    simp [decodeVarintFrom] at h
  | cons b rest ih =>
    intro r s pos v p h
    simp only [decodeVarintFrom] at h
    by_cases hb : b &&& 0x80 = 0
    · rw [if_pos hb] at h
      simp only [Except.ok.injEq, Prod.mk.injEq] at h
      simp only [List.length_cons]
      omega
    · rw [if_neg hb] at h
      by_cases hov : 64 ≤ s + 7
      · rw [if_pos hov] at h
        exact absurd h (by simp)
      · rw [if_neg hov] at h
        have := ih _ _ _ _ _ h
        simp only [List.length_cons]
        omega

/-- A successful varint decode only looks at the bytes it consumes:
truncating the buffer anywhere past the consumed prefix leaves the
result unchanged. -/
theorem decodeVarintFrom_take :
    ∀ (l : List Nat) (r s pos v p m : Nat), decodeVarintFrom l r s pos = .ok (v, p) →
      p - pos ≤ m → decodeVarintFrom (l.take m) r s pos = .ok (v, p) := by
  intro l
  induction l with
  | nil =>
    intro r s pos v p m h _
    simp [decodeVarintFrom] at h
  | cons b rest ih =>
    intro r s pos v p m h hm
    have hbd := decodeVarintFrom_ok_bounds (b :: rest) r s pos v p h
    cases m with
    | zero => omega
    | succ m =>
      rw [List.take_succ_cons]
      simp only [decodeVarintFrom] at h ⊢
      by_cases hb : b &&& 0x80 = 0
      · rw [if_pos hb] at h ⊢
        exact h
      · rw [if_neg hb] at h ⊢
        by_cases hov : 64 ≤ s + 7
        · rw [if_pos hov] at h
          exact absurd h (by simp)
        · rw [if_neg hov] at h ⊢
          have hbd2 := decodeVarintFrom_ok_bounds rest _ _ _ _ _ h
          exact ih _ _ _ _ _ _ h (by omega)

/-- If a varint decode consumed the whole buffer, removing the final
byte makes decoding fail. -/
theorem decodeVarintFrom_dropLast_error :
    ∀ (l : List Nat) (r s pos v p : Nat), decodeVarintFrom l r s pos = .ok (v, p) →
      p = pos + l.length →
      ∃ e, decodeVarintFrom (l.take (l.length - 1)) r s pos = .error e := by
  intro l
  induction l with
  | nil =>
    intro r s pos v p h _
    simp [decodeVarintFrom] at h
  | cons b rest ih =>
    intro r s pos v p h hp
    cases rest with
    | nil => exact ⟨"truncated varint", rfl⟩
    | cons c rest2 =>
      simp only [decodeVarintFrom] at h
      by_cases hb : b &&& 0x80 = 0
      · rw [if_pos hb] at h
        simp only [Except.ok.injEq, Prod.mk.injEq] at h
        simp only [List.length_cons] at hp
        omega
      · rw [if_neg hb] at h
        by_cases hov : 64 ≤ s + 7
        · rw [if_pos hov] at h
          exact absurd h (by simp)
        · rw [if_neg hov] at h
          have hp2 : p = (pos + 1) + (c :: rest2).length := by
            simp only [List.length_cons] at hp ⊢
            omega
          obtain ⟨e, he⟩ := ih _ _ _ _ _ h hp2
          refine ⟨e, ?_⟩
          have htake : (b :: c :: rest2).take ((b :: c :: rest2).length - 1)
              = b :: (c :: rest2).take ((c :: rest2).length - 1) := by
            simp only [List.length_cons]
            rw [show rest2.length + 1 + 1 - 1 = rest2.length + 1 from by omega,
              List.take_succ_cons,
              show rest2.length + 1 - 1 = rest2.length from by omega]
          rw [htake]
          simp only [decodeVarintFrom]
          rw [if_neg hb, if_neg hov]
          exact he

/-- A buffer whose bytes all have the continuation bit set (and whose
length keeps the shift below the 64-bit guard) is a truncated varint. -/
theorem decodeVarintFrom_all_cont :
    ∀ (l : List Nat) (r s pos : Nat), (∀ b ∈ l, b &&& 0x80 ≠ 0) → s + 7 * l.length < 64 →
      decodeVarintFrom l r s pos = .error "truncated varint" := by
  intro l
  induction l with
  | nil => intro r s pos _ _; rfl
  | cons b rest ih =>
    intro r s pos hcont hs
    simp only [decodeVarintFrom]
    rw [if_neg (hcont b (by simp))]
    simp only [List.length_cons] at hs
    rw [if_neg (by omega)]
    exact ih _ _ _ (fun x hx => hcont x (by simp [hx])) (by omega)

/-- C6: truncation is always an error, never a wrong value.
`next_field` raises when the tag (or value) varint has no terminating
byte before the buffer ends, when fewer than 8 (resp. 4) bytes remain
for a FIXED64 (resp. FIXED32) payload, and when a LEN field declares
more bytes than remain; and removing the last byte of a buffer whose
single first field consumed the whole buffer makes `next_field` fail
rather than return a field. -/
theorem reader_truncation_errors (data : List Nat) (pos tag p1 n L p2 : Nat) (e : String)
    (f : Field) (r2 : Reader) :
    (pos < data.length → (∀ b ∈ data.drop pos, b &&& 0x80 ≠ 0) → data.length - pos ≤ 9 →
      Reader.next_field ⟨data, pos⟩ = .error "truncated varint")
    ∧ (pos < data.length → decode_varint data pos = .error e →
        Reader.next_field ⟨data, pos⟩ = .error e)
    ∧ (pos < data.length → decode_varint data pos = .ok (tag, p1) →
        parse_tag tag = .ok (n, .VARINT) → decode_varint data p1 = .error e →
        Reader.next_field ⟨data, pos⟩ = .error e)
    ∧ (pos < data.length → decode_varint data pos = .ok (tag, p1) →
        parse_tag tag = .ok (n, .FIXED64) → data.length < p1 + 8 →
        Reader.next_field ⟨data, pos⟩ = .error "truncated fixed64")
    ∧ (pos < data.length → decode_varint data pos = .ok (tag, p1) →
        parse_tag tag = .ok (n, .FIXED32) → data.length < p1 + 4 →
        Reader.next_field ⟨data, pos⟩ = .error "truncated fixed32")
    ∧ (pos < data.length → decode_varint data pos = .ok (tag, p1) →
        parse_tag tag = .ok (n, .LEN) → decode_varint data p1 = .ok (L, p2) →
        data.length < p2 + L →
        Reader.next_field ⟨data, pos⟩ = .error "truncated length-delimited field")
    ∧ (Reader.next_field ⟨data, 0⟩ = .ok (some (f, r2)) → r2.pos = data.length →
        (Reader.next_field ⟨data.dropLast, 0⟩).isOk = false) := by
  refine ⟨?_, ?_, ?_, ?_, ?_, ?_, ?_⟩
  · intro h0 hcont hlen
    have hdec : decode_varint data pos = .error "truncated varint" := by
      unfold decode_varint
      apply decodeVarintFrom_all_cont _ _ _ _ hcont
      have hld : (data.drop pos).length = data.length - pos := List.length_drop pos data
      omega
    simp only [Reader.next_field]
    rw [if_neg (by omega), hdec]
  · intro h0 hdec
    simp only [Reader.next_field]
    rw [if_neg (by omega), hdec]
  · intro h0 hdec hparse hdec2
    simp only [Reader.next_field]
    rw [if_neg (by omega)]
    simp only [hdec, hparse, hdec2]
  · intro h0 hdec hparse hlt
    simp only [Reader.next_field]
    rw [if_neg (by omega)]
    simp only [hdec, hparse]
    rw [if_pos (by omega)]
  · intro h0 hdec hparse hlt
    simp only [Reader.next_field]
    rw [if_neg (by omega)]
    simp only [hdec, hparse]
    rw [if_pos (by omega)]
  · intro h0 hdec hparse hdec2 hlt
    simp only [Reader.next_field]
    rw [if_neg (by omega)]
    simp only [hdec, hparse, hdec2]
    rw [if_pos (by omega)]
  · intro hok hend
    have hlen1 : data.dropLast.length = data.length - 1 := List.length_dropLast data
    have htake : data.dropLast = data.take (data.length - 1) := List.dropLast_eq_take data
    simp only [Reader.next_field] at hok
    by_cases h0 : data.length ≤ 0
    · rw [if_pos h0] at hok
      exact absurd hok (by simp)
    rw [if_neg h0] at hok
    cases hdec : decode_varint data 0 with
    | error e2 =>
      simp only [hdec] at hok
      exact absurd hok (by simp)
    | ok tp1 =>
      obtain ⟨tag1, q1⟩ := tp1
      simp only [hdec] at hok
      have hdecF : decodeVarintFrom data 0 0 0 = .ok (tag1, q1) := by
        have h2 := hdec
        unfold decode_varint at h2
        rwa [List.drop_zero] at h2
      have hq1 := decodeVarintFrom_ok_bounds data 0 0 0 tag1 q1 hdecF
      cases hparse : parse_tag tag1 with
      | error e2 =>
        simp only [hparse] at hok
        exact absurd hok (by simp)
      | ok nw =>
        obtain ⟨n1, w1⟩ := nw
        simp only [hparse] at hok
        have hdecT : ∀ m : Nat, q1 ≤ m → m ≤ data.length - 1 →
            decode_varint data.dropLast 0 = .ok (tag1, q1) := by
          intro m hm1 hm2
          unfold decode_varint
          rw [List.drop_zero, htake]
          exact decodeVarintFrom_take data 0 0 0 tag1 q1 (data.length - 1) hdecF (by omega)
        cases w1 with
        | VARINT =>
          cases hdec2 : decode_varint data q1 with
          | error e2 =>
            simp only [hdec2] at hok
            exact absurd hok (by simp)
          | ok vp =>
            obtain ⟨val, q2⟩ := vp
            simp only [hdec2] at hok
            simp only [Except.ok.injEq, Option.some.injEq, Prod.mk.injEq] at hok
            have hq2 : q2 = data.length := by
              rw [← hok.2] at hend
              exact hend
            have hdec2F : decodeVarintFrom (data.drop q1) 0 0 q1 = .ok (val, q2) := by
              have h2 := hdec2
              unfold decode_varint at h2
              exact h2
            have hbv := decodeVarintFrom_ok_bounds (data.drop q1) 0 0 q1 val q2 hdec2F
            have hld : (data.drop q1).length = data.length - q1 := List.length_drop q1 data
            have htag : decode_varint data.dropLast 0 = .ok (tag1, q1) :=
              hdecT q1 le_rfl (by omega)
            have hconsume : q2 = q1 + (data.drop q1).length := by omega
            obtain ⟨e2, he2⟩ :=
              decodeVarintFrom_dropLast_error (data.drop q1) 0 0 q1 val q2 hdec2F hconsume
            have hval : decode_varint data.dropLast q1 = .error e2 := by
              unfold decode_varint
              rw [htake, List.drop_take]
              have heq : data.length - 1 - q1 = (data.drop q1).length - 1 := by omega
              rw [heq]
              exact he2
            simp only [Reader.next_field]
            rw [if_neg (by rw [hlen1]; omega)]
            simp only [htag, hparse, hval]
            rfl
        | FIXED64 =>
          by_cases h8 : data.length < q1 + 8
          · rw [if_pos h8] at hok
            exact absurd hok (by simp)
          rw [if_neg h8] at hok
          simp only [Except.ok.injEq, Option.some.injEq, Prod.mk.injEq] at hok
          have hq2 : q1 + 8 = data.length := by
            rw [← hok.2] at hend
            exact hend
          have htag : decode_varint data.dropLast 0 = .ok (tag1, q1) :=
            hdecT q1 le_rfl (by omega)
          simp only [Reader.next_field]
          rw [if_neg (by rw [hlen1]; omega)]
          simp only [htag, hparse]
          rw [if_pos (by rw [hlen1]; omega)]
          rfl
        | FIXED32 =>
          by_cases h4 : data.length < q1 + 4
          · rw [if_pos h4] at hok
            exact absurd hok (by simp)
          rw [if_neg h4] at hok
          simp only [Except.ok.injEq, Option.some.injEq, Prod.mk.injEq] at hok
          have hq2 : q1 + 4 = data.length := by
            rw [← hok.2] at hend
            exact hend
          have htag : decode_varint data.dropLast 0 = .ok (tag1, q1) :=
            hdecT q1 le_rfl (by omega)
          simp only [Reader.next_field]
          rw [if_neg (by rw [hlen1]; omega)]
          simp only [htag, hparse]
          rw [if_pos (by rw [hlen1]; omega)]
          rfl
        | LEN =>
          cases hdec2 : decode_varint data q1 with
          | error e2 =>
            simp only [hdec2] at hok
            exact absurd hok (by simp)
          | ok lp =>
            obtain ⟨L1, q2⟩ := lp
            simp only [hdec2] at hok
            by_cases hL : data.length < q2 + L1
            · rw [if_pos hL] at hok
              exact absurd hok (by simp)
            rw [if_neg hL] at hok
            simp only [Except.ok.injEq, Option.some.injEq, Prod.mk.injEq] at hok
            have hq2 : q2 + L1 = data.length := by
              rw [← hok.2] at hend
              exact hend
            have hdec2F : decodeVarintFrom (data.drop q1) 0 0 q1 = .ok (L1, q2) := by
              have h2 := hdec2
              unfold decode_varint at h2
              exact h2
            have hbv := decodeVarintFrom_ok_bounds (data.drop q1) 0 0 q1 L1 q2 hdec2F
            have hld : (data.drop q1).length = data.length - q1 := List.length_drop q1 data
            have htag : decode_varint data.dropLast 0 = .ok (tag1, q1) :=
              hdecT q1 le_rfl (by omega)
            by_cases hL0 : L1 = 0
            · subst hL0
              have hconsume : q2 = q1 + (data.drop q1).length := by omega
              obtain ⟨e2, he2⟩ :=
                decodeVarintFrom_dropLast_error (data.drop q1) 0 0 q1 0 q2 hdec2F hconsume
              have hval : decode_varint data.dropLast q1 = .error e2 := by
                unfold decode_varint
                rw [htake, List.drop_take]
                have heq : data.length - 1 - q1 = (data.drop q1).length - 1 := by omega
                rw [heq]
                exact he2
              simp only [Reader.next_field]
              rw [if_neg (by rw [hlen1]; omega)]
              simp only [htag, hparse, hval]
              rfl
            · have hlenvar : decode_varint data.dropLast q1 = .ok (L1, q2) := by
                unfold decode_varint
                rw [htake, List.drop_take]
                have heq : data.length - 1 - q1 = (data.drop q1).length - 1 := by omega
                rw [heq]
                apply decodeVarintFrom_take (data.drop q1) 0 0 q1 L1 q2 _ hdec2F
                omega
              simp only [Reader.next_field]
              rw [if_neg (by rw [hlen1]; omega)]
              simp only [htag, hparse, hlenvar]
              rw [if_pos (by rw [hlen1]; omega)]
              rfl

/-- Witness for C6 at concrete truncated buffers: a tag whose value
varint is truncated, a FIXED64/FIXED32 payload with too few bytes, a LEN
field declaring 5 bytes with 1 remaining, an all-continuation buffer,
and a well-formed single-field message with its last byte removed. -/
theorem reader_truncation_errors_witness :
    Reader.next_field ⟨[128, 128], 0⟩ = .error "truncated varint"
    ∧ Reader.next_field ⟨[8, 128], 0⟩ = .error "truncated varint"
    ∧ Reader.next_field ⟨[9], 0⟩ = .error "truncated fixed64"
    ∧ Reader.next_field ⟨[13], 0⟩ = .error "truncated fixed32"
    ∧ Reader.next_field ⟨[10, 5, 1], 0⟩ = .error "truncated length-delimited field"
    ∧ (Reader.next_field ⟨([8, 1] : List Nat).dropLast, 0⟩).isOk = false := by
  refine ⟨?_, ?_, ?_, ?_, ?_, ?_⟩
  · exact (reader_truncation_errors [128, 128] 0 0 0 0 0 0 "e" ⟨1, .VARINT, [], none⟩
      ⟨[], 0⟩).1 (by decide) (by decide) (by decide)
  · exact (reader_truncation_errors [8, 128] 0 8 1 1 0 0 "truncated varint"
      ⟨1, .VARINT, [], none⟩ ⟨[], 0⟩).2.2.1 (by decide) (by decide) (by decide) (by decide)
  · exact (reader_truncation_errors [9] 0 9 1 1 0 0 "e" ⟨1, .VARINT, [], none⟩
      ⟨[], 0⟩).2.2.2.1 (by decide) (by decide) (by decide) (by decide)
  · exact (reader_truncation_errors [13] 0 13 1 1 0 0 "e" ⟨1, .VARINT, [], none⟩
      ⟨[], 0⟩).2.2.2.2.1 (by decide) (by decide) (by decide) (by decide)
  · exact (reader_truncation_errors [10, 5, 1] 0 10 1 1 5 2 "e" ⟨1, .VARINT, [], none⟩
      ⟨[], 0⟩).2.2.2.2.2.1 (by decide) (by decide) (by decide) (by decide) (by decide)
  · exact (reader_truncation_errors [8, 1] 0 0 0 0 0 0 "e" ⟨1, .VARINT, [], some 1⟩
      ⟨[8, 1], 2⟩).2.2.2.2.2.2 (by decide) (by decide)

end FastProto
